import Mathlib

/-!
# A verification model of `pangako` (src/pangako.js)

`pangako` is a small Promises/A+ implementation.  This file embeds its
settlement core as a shallow, executable operational model:

* a heap of promise records (`Prom`), addressed by `Nat`, mirroring the
  fields `state`, `valueOrReason`, `subscribers` set up by the `Promise`
  constructor (pangako.js lines 42-56);
* a heap of `settled` cells (`St.ctxs`) modelling the mutable `let settled`
  variable captured by the `onFulfilled`/`onRejected` closures of the
  promise resolution procedure (lines 181-192) — one cell per resolution
  attempt, exactly like one closure-captured variable per call;
* a FIFO task queue (`St.tasks`) modelling the external `asap` scheduler:
  the synchronous code only ever *appends* work, `runTasks` executes it;
* an event log (`St.log`) recording the externally observable events the
  specification talks about: invocations of user handlers, and reads of
  the `then` property of a foreign object.

JavaScript values are modelled by `XVal`.  A foreign object carries the
result of reading its `then` property; since the environment may hand back
a *different* result on a second read (a side-effecting getter), an object
carries the result of the first read (`thn`) and the result a hypothetical
second read would produce (`thn2`).  The source reads `x.then` exactly once
(line 175, `let then = x.then;`), so the model consumes `thn` only; that a
second-read slot is never consulted is itself one of the verified claims.

A thenable's `then` behaviour is a `Script`: the finite sequence of
callback invocations / the throw that `then.call(x, onFulfilled, onRejected)`
performs synchronously.  Recursion of the resolution procedure is bounded
by explicit fuel, so every definition is executable and reduces by `rfl`.
-/

namespace Pangako

/-- The frozen state enum `PromiseState` (pangako.js lines 30-34). -/
inductive PromiseState where
  | pending
  | fulfilled
  | rejected
  deriving DecidableEq, Repr

/-- The kind of one synchronous action a foreign thenable's `then` performs:
invoke the first callback, invoke the second callback, or throw. -/
inductive TKind where
  | callF
  | callR
  | raiseErr
  deriving DecidableEq, Repr

mutual
/-- JavaScript values, as far as the library observes them.  `undef`,
`nullv`, `int` are non-object values (the `x && (typeof x === 'object' ||
typeof x === 'function')` test at line 173 fails on them, `null` because it
is falsy).  `typeError` is the `TypeError` instance thrown at line 171 (its
instance identity is never claimed, and as an object it has no `then`
property).  `promise a` is a reference to the pangako promise at heap
address `a` — reference identity is what line 170's `===` compares.
`obj tag thn thn2` is a foreign object/function: `tag` is its identity for
the event log, `thn` is what the first read of its `then` property yields,
`thn2` what a second read would yield (see the header comment). -/
inductive XVal where
  | undef
  | nullv
  | int (n : Int)
  | typeError
  | promise (a : Nat)
  | obj (tag : Nat) (thn : ThenProp) (thn2 : ThenProp)

/-- The result of reading the `then` property of a foreign object:
absent / not callable (line 176's `then && typeof then === 'function'`
fails), a getter that throws (caught by the outer catch at line 207), or a
callable whose invocation performs `Script`. -/
inductive ThenProp where
  | noThen
  | getterThrows (e : XVal)
  | callable (sc : Script)

/-- A finite list of thenable actions (a cons-list, kept as its own
inductive so the mutual block stays plain). -/
inductive Script where
  | nil
  | cons (k : TKind) (v : XVal) (rest : Script)
end

/-- The body of a user-supplied handler function, as the model can observe
it: return a fixed value, or throw a fixed error. -/
inductive HCode where
  | const (v : XVal)
  | throws (e : XVal)

/-- A value passed to `then` as `onFulfilled`/`onRejected`.  `val v` is any
non-function value (line 97 / line 132's `typeof` test fails on it).
`fn id code` is a user function, `id` identifying it in the event log.
`onFulfilledCb ctx d` / `onRejectedCb ctx d` are the one-shot closures the
resolution procedure creates at lines 183-192, capturing the `settled` cell
`ctx` and the target deferred `d`. -/
inductive Handler where
  | val (v : XVal)
  | fn (id : Nat) (code : HCode)
  | onFulfilledCb (ctx : Nat) (d : Nat)
  | onRejectedCb (ctx : Nat) (d : Nat)

/-- `callback && typeof callback === 'function'` (lines 97 and 132). -/
def isCallable : Handler → Bool
  | .val _ => false
  | _ => true

/-- One entry of a promise's `subscribers` array (pushed at lines 87-91):
the deferred to settle (identified by its promise's address — the
deferred's `resolve`/`reject` are the capabilities of that promise) and the
two registered handlers. -/
structure Subscriber where
  deferred : Nat
  onFulfilled : Handler
  onRejected : Handler

/-- A promise record: the fields the `Promise` constructor initialises
(lines 43-46) plus `valueOrReason` set at settlement (line 124). -/
structure Prom where
  state : PromiseState
  valueOrReason : XVal
  subscribers : List Subscriber

instance : Inhabited Prom := ⟨⟨.pending, .undef, []⟩⟩

/-- Observable events: a user handler `id` being invoked with an argument,
and the `then` property of the foreign object `tag` being read. -/
inductive Ev where
  | call (id : Nat) (arg : XVal)
  | thenRead (tag : Nat)

/-- A unit of work handed to `asap`: either
`doPromiseCallback(deferred, callback, valueOrReason)` (lines 101-103 and
133-135) or the pass-through settlement closure (lines 139-151). -/
inductive Task where
  | cb (deferred : Nat) (callback : Handler) (valueOrReason : XVal)
  | passThrough (deferred : Nat) (state : PromiseState) (valueOrReason : XVal)

/-- The whole mutable state: the promise heap, the `settled` closure cells,
the pending `asap` queue, and the event log. -/
structure St where
  heap : List Prom
  ctxs : List Bool
  tasks : List Task
  log : List Ev

/-- Append an event to the log. -/
def logEv (e : Ev) (s : St) : St := { s with log := s.log ++ [e] }

/-- `asap(f)`: append a unit of work to the scheduler queue. -/
def schedule (t : Task) (s : St) : St := { s with tasks := s.tasks ++ [t] }

/-- `let settled;` — allocate a fresh (falsy) `settled` cell; its address is
the current `ctxs` length. -/
def allocCtx (s : St) : St := { s with ctxs := s.ctxs ++ [false] }

/-- `settled = true;` on cell `i`. -/
def setCtx (i : Nat) (s : St) : St := { s with ctxs := s.ctxs.set i true }

/-- Read the `settled` cell `i` (an undeclared/unallocated cell is falsy). -/
def ctxGet (i : Nat) (s : St) : Bool := s.ctxs.getD i false

/-- `defer()` (lines 17-28): construct a fresh promise via `new Promise`
(state pending, no subscribers, lines 43-46) and hand out its two
settlement capabilities.  The model identifies the deferred with its
promise's heap address; the capabilities are `resolvePromise`/
`rejectPromise` at that address (lines 49-54). -/
def defer (s : St) : Nat × St :=
  (s.heap.length, { s with heap := s.heap ++ [⟨.pending, .undef, []⟩] })

/-- The body of the subscriber-draining loop of `settlePromise`
(lines 128-153): pick the matching handler; if callable, schedule
`doPromiseCallback`, else schedule the pass-through settlement.  (The
source wraps the pass-through in try/catch; `resolve`/`reject` are total in
the model, so the catch arm is dead and `runTask` performs the settlement
directly.) -/
def scheduleSub (state : PromiseState) (valueOrReason : XVal) (s : St)
    (sub : Subscriber) : St :=
  let callback := if state = .fulfilled then sub.onFulfilled else sub.onRejected
  if isCallable callback then
    schedule (.cb sub.deferred callback valueOrReason) s
  else
    schedule (.passThrough sub.deferred state valueOrReason) s

/-- `settlePromise(promise, state, valueOrReason)` (lines 121-156): if the
promise is pending, set its state and result, drain the subscriber list
(each subscriber's work goes through the scheduler), else do nothing.
Setting `subscribers := []` is the source's `while (subscribers.shift())`
drain, which empties the array while iterating a snapshot of it. -/
def settlePromise (a : Nat) (state : PromiseState) (valueOrReason : XVal)
    (s : St) : St :=
  let p := s.heap.getD a default
  if p.state = .pending then
    let s1 := { s with heap := s.heap.set a ⟨state, valueOrReason, []⟩ }
    p.subscribers.foldl (scheduleSub state valueOrReason) s1
  else s

/-- `resolvePromise(promise, value)` (lines 113-115): a *direct* settle to
fulfilled — this is the `resolve` capability the constructor passes to its
work function (lines 49-51), and the `deferred.resolve` used by the
resolution procedure at lines 200/204. -/
def resolvePromise (a : Nat) (value : XVal) (s : St) : St :=
  settlePromise a .fulfilled value s

/-- `rejectPromise(promise, reason)` (lines 117-119). -/
def rejectPromise (a : Nat) (reason : XVal) (s : St) : St :=
  settlePromise a .rejected reason s

/-- `Promise.prototype.then` (lines 81-109), named `thenFn` because `then`
is a Lean keyword.  Pending: create a deferred, push a subscriber, return
the deferred's promise.  Settled with a callable matching handler: create a
deferred, schedule `doPromiseCallback` with the stored result, return the
deferred's promise.  Settled otherwise: return `this` (line 108). -/
def thenFn (self : Nat) (onFulfilled onRejected : Handler) (s : St) :
    Nat × St :=
  let p := s.heap.getD self default
  if p.state = .pending then
    let (d, s1) := defer s
    (d, { s1 with
            heap := s1.heap.set self
              ⟨.pending, p.valueOrReason,
                p.subscribers ++ [⟨d, onFulfilled, onRejected⟩]⟩ })
  else
    let callback := if p.state = .fulfilled then onFulfilled else onRejected
    if isCallable callback then
      let (d, s1) := defer s
      (d, schedule (.cb d callback p.valueOrReason) s1)
    else
      (self, s)

/-- The two mutually recursive synchronous activities of the resolution
procedure: resolving a deferred with a candidate value
(`promiseResolutionProcedure`, lines 168-210), and executing a thenable's
`then.call` action script against the pair of one-shot closures capturing
the `settled` cell `ctx` (lines 181-197).  They are packaged as one
command type so the interpreter `exec` can recurse structurally on fuel. -/
inductive Cmd where
  | res (d : Nat) (x : XVal)
  | script (d : Nat) (ctx : Nat) (sc : Script)

/-- The fuel-indexed interpreter for `Cmd`.  With fuel `0` nothing happens
(the run is cut off); every recursive call strictly decreases fuel, so the
function is structural and reduces by `rfl`.

`.res d x` is `promiseResolutionProcedure(deferred, x)`:
* line 170: if `x` is the deferred's own promise, `throw new TypeError()`,
  caught by the outer catch at 207, so the deferred is rejected with it;
* a different promise is an object whose `then` is the (callable)
  prototype method, so `then.call(x, onFulfilled, onRejected)` is
  `x.then(onFulfilled, onRejected)` with the two fresh one-shot closures
  (the prototype-method lookup involves no foreign getter, hence no
  `thenRead` event);
* for a foreign object, line 175 reads `x.then` once (logged); a throwing
  getter rejects via the outer catch; a non-callable `then` falls to
  line 200's `deferred.resolve(x)`; a callable one runs the script with a
  freshly allocated `settled` cell;
* any other (non-object) value falls to line 204's `deferred.resolve(x)`.

`.script d ctx sc` executes the thenable's actions in order:
* `callF v` invokes the `onFulfilled` closure (lines 183-187): if
  `settled` it returns, else it sets `settled` and recursively resolves;
* `callR v` invokes the `onRejected` closure (lines 188-192): if
  `settled` it returns, else it sets `settled` and rejects the deferred;
* `raiseErr e` is `then.call` throwing: execution of the remaining actions
  is abandoned and the catch at lines 194-197 runs — swallowed if
  `settled`, otherwise the deferred is rejected with the error. -/
def exec : Nat → Cmd → St → St
  | 0, _, s => s
  | fuel + 1, .res d x, s =>
    match x with
    | .promise a =>
      if a = d then
        rejectPromise d .typeError s
      else
        let ctx := s.ctxs.length
        (thenFn a (.onFulfilledCb ctx d) (.onRejectedCb ctx d)
          (allocCtx s)).2
    | .obj tag thn thn2 =>
      let s1 := logEv (.thenRead tag) s
      match thn with
      | .noThen => resolvePromise d (.obj tag thn thn2) s1
      | .getterThrows e => rejectPromise d e s1
      | .callable sc =>
        let ctx := s1.ctxs.length
        exec fuel (.script d ctx sc) (allocCtx s1)
    | v => resolvePromise d v s
  | fuel + 1, .script d ctx sc, s =>
    match sc with
    | .nil => s
    | .cons k v rest =>
      match k with
      | .callF =>
        if ctxGet ctx s then exec fuel (.script d ctx rest) s
        else
          exec fuel (.script d ctx rest)
            (exec fuel (.res d v) (setCtx ctx s))
      | .callR =>
        if ctxGet ctx s then exec fuel (.script d ctx rest) s
        else exec fuel (.script d ctx rest) (rejectPromise d v (setCtx ctx s))
      | .raiseErr =>
        if ctxGet ctx s then s else rejectPromise d v s

/-- `promiseResolutionProcedure(deferred, x)` (lines 168-210), with
explicit fuel bounding the recursion depth through nested thenables. -/
def promiseResolutionProcedure (fuel : Nat) (d : Nat) (x : XVal) (s : St) :
    St :=
  exec fuel (.res d x) s

/-- Invoke a handler value with one argument.  User functions log a `call`
event and run their body; the one-shot closures of the resolution
procedure run their guard-and-settle bodies (lines 183-192) and return
`undefined`.  (`val` is non-callable; every call site guards on
`isCallable`, so that branch is unreachable and returns `undefined`.) -/
def applyHandler (fuel : Nat) (h : Handler) (arg : XVal) (s : St) :
    (Except XVal XVal) × St :=
  match h with
  | .val _ => (.ok .undef, s)
  | .fn id code =>
    let s1 := logEv (.call id arg) s
    match code with
    | .const v => (.ok v, s1)
    | .throws e => (.error e, s1)
  | .onFulfilledCb ctx d =>
    if ctxGet ctx s then (.ok .undef, s)
    else (.ok .undef, promiseResolutionProcedure fuel d arg (setCtx ctx s))
  | .onRejectedCb ctx d =>
    if ctxGet ctx s then (.ok .undef, s)
    else (.ok .undef, rejectPromise d arg (setCtx ctx s))

/-- `doPromiseCallback(deferred, callback, valueOrReason)` (lines 158-166):
invoke the callback; feed a returned value to the resolution procedure;
convert a thrown error into `deferred.reject(err)`. -/
def doPromiseCallback (fuel : Nat) (d : Nat) (callback : Handler)
    (valueOrReason : XVal) (s : St) : St :=
  match applyHandler fuel callback valueOrReason s with
  | (.ok x, s1) => promiseResolutionProcedure fuel d x s1
  | (.error e, s1) => rejectPromise d e s1

/-- Execute one scheduled unit of work. -/
def runTask (fuel : Nat) (t : Task) (s : St) : St :=
  match t with
  | .cb d callback valueOrReason => doPromiseCallback fuel d callback valueOrReason s
  | .passThrough d state valueOrReason =>
    if state = .fulfilled then resolvePromise d valueOrReason s
    else rejectPromise d valueOrReason s

/-- Drain the scheduler queue in FIFO order for at most `steps` units of
work, each run with resolution fuel `fuel`. -/
def runTasks : Nat → Nat → St → St
  | 0, _, s => s
  | n + 1, fuel, s =>
    match s.tasks with
    | [] => s
    | t :: rest => runTasks n fuel (runTask fuel t { s with tasks := rest })

/-- A nest of thenables of depth `n` bottoming out in the plain value `v`:
`chain 0 v` is the value itself, and `chain (n+1) v` is a thenable whose
`then` immediately fulfills with `chain n v`. -/
def chain : Nat → Int → XVal
  | 0, v => .int v
  | n + 1, v => .obj 0 (.callable (.cons .callF (chain n v) .nil)) .noThen

/-- `v` is not a foreign object (so resolving with it never reads a `then`
property of a tagged object). -/
def noObj : XVal → Bool
  | .obj _ _ _ => false
  | _ => true

/-- Every value a script passes to a callback (or throws) is a non-object. -/
def scriptNoObj : Script → Bool
  | .nil => true
  | .cons _ v rest => noObj v && scriptNoObj rest

/-- How many times the `then` property of the object `tag` was read,
according to a log. -/
def readCount (tag : Nat) (l : List Ev) : Nat :=
  l.countP fun e =>
    match e with
    | .thenRead t => t == tag
    | _ => false

/-! ### Concrete states and values for counterexamples and witnesses -/

/-- A state with a single pending promise at address 0. -/
def sPend : St := ⟨[⟨.pending, .undef, []⟩], [], [], []⟩

/-- A state with a single fulfilled promise (value 1) at address 0. -/
def sFul : St := ⟨[⟨.fulfilled, .int 1, []⟩], [], [], []⟩

/-- A state with a rejected promise (reason 3) at address 0 and a fulfilled
promise (value 4) at address 1. -/
def sTwo : St := ⟨[⟨.rejected, .int 3, []⟩, ⟨.fulfilled, .int 4, []⟩], [], [], []⟩

/-- A thenable whose `then` immediately invokes its rejection callback with
7; adopting its state would mean becoming rejected with 7. -/
def rejectingThenable : XVal :=
  .obj 5 (.callable (.cons .callR (.int 7) .nil)) .noThen

/-! ## Small list facts used by the state lemmas -/

theorem listGetD_concat_length (l : List α) (a d : α) :
    (l ++ [a]).getD l.length d = a := by
  induction l with
  | nil => rfl
  | cons x l ih => simp only [List.cons_append, List.length_cons]; exact ih

theorem listGetD_true_lt (l : List Bool) (i : Nat)
    (h : l.getD i false = true) : i < l.length := by
  induction l generalizing i with
  | nil => simp [List.getD] at h
  | cons x l ih =>
    cases i with
    | zero => simp
    | succ j => simpa using ih j (by simpa using h)

theorem listGetD_append_of_lt (l l' : List α) (i : Nat) (d : α)
    (h : i < l.length) : (l ++ l').getD i d = l.getD i d := by
  induction l generalizing i with
  | nil => exact absurd h (Nat.not_lt_zero i)
  | cons x l ih =>
    cases i with
    | zero => rfl
    | succ j => simpa using ih j (Nat.lt_of_succ_lt_succ h)

theorem listGetD_set_true (l : List Bool) (i j : Nat)
    (h : l.getD i false = true) : (l.set j true).getD i false = true := by
  induction l generalizing i j with
  | nil => simp [List.getD] at h
  | cons x l ih =>
    cases j with
    | zero => cases i with
      | zero => rfl
      | succ k => simpa using h
    | succ j' => cases i with
      | zero => simpa using h
      | succ k => simpa using ih k j' (by simpa using h)

theorem listGetD_set_self (l : List α) (a d : α) (i : Nat)
    (h : i < l.length) : (l.set i a).getD i d = a := by
  induction l generalizing i with
  | nil => exact absurd h (Nat.not_lt_zero i)
  | cons x l ih =>
    cases i with
    | zero => rfl
    | succ j => simpa using ih j (Nat.lt_of_succ_lt_succ h)

theorem listGetD_set_ne (l : List α) (a d : α) (i j : Nat) (h : i ≠ j) :
    (l.set j a).getD i d = l.getD i d := by
  induction l generalizing i j with
  | nil => rfl
  | cons x l ih =>
    cases j with
    | zero => cases i with
      | zero => exact absurd rfl h
      | succ k => rfl
    | succ j' => cases i with
      | zero => rfl
      | succ k => simpa using ih k j' (fun hk => h (by simp [hk]))

/-! ## Projections of the primitive state operations -/

@[simp] theorem logEv_heap (e : Ev) (s : St) : (logEv e s).heap = s.heap := rfl

@[simp] theorem logEv_ctxs (e : Ev) (s : St) : (logEv e s).ctxs = s.ctxs := rfl

@[simp] theorem logEv_tasks (e : Ev) (s : St) : (logEv e s).tasks = s.tasks := rfl

@[simp] theorem logEv_log (e : Ev) (s : St) : (logEv e s).log = s.log ++ [e] := rfl

@[simp] theorem schedule_heap (t : Task) (s : St) : (schedule t s).heap = s.heap := rfl

@[simp] theorem schedule_ctxs (t : Task) (s : St) : (schedule t s).ctxs = s.ctxs := rfl

@[simp] theorem schedule_log (t : Task) (s : St) : (schedule t s).log = s.log := rfl

@[simp] theorem allocCtx_heap (s : St) : (allocCtx s).heap = s.heap := rfl

@[simp] theorem allocCtx_tasks (s : St) : (allocCtx s).tasks = s.tasks := rfl

@[simp] theorem allocCtx_log (s : St) : (allocCtx s).log = s.log := rfl

@[simp] theorem allocCtx_ctxs (s : St) : (allocCtx s).ctxs = s.ctxs ++ [false] := rfl

@[simp] theorem setCtx_heap (i : Nat) (s : St) : (setCtx i s).heap = s.heap := rfl

@[simp] theorem setCtx_tasks (i : Nat) (s : St) : (setCtx i s).tasks = s.tasks := rfl

@[simp] theorem setCtx_log (i : Nat) (s : St) : (setCtx i s).log = s.log := rfl

@[simp] theorem setCtx_ctxs (i : Nat) (s : St) : (setCtx i s).ctxs = s.ctxs.set i true := rfl

theorem scheduleSub_heap (st : PromiseState) (v : XVal) (s : St) (sub : Subscriber) :
    (scheduleSub st v s sub).heap = s.heap := by
  unfold scheduleSub; split <;> (dsimp only; split <;> rfl)

theorem scheduleSub_ctxs (st : PromiseState) (v : XVal) (s : St) (sub : Subscriber) :
    (scheduleSub st v s sub).ctxs = s.ctxs := by
  unfold scheduleSub; split <;> (dsimp only; split <;> rfl)

theorem scheduleSub_log (st : PromiseState) (v : XVal) (s : St) (sub : Subscriber) :
    (scheduleSub st v s sub).log = s.log := by
  unfold scheduleSub; split <;> (dsimp only; split <;> rfl)

theorem foldlSub_heap (st : PromiseState) (v : XVal) (subs : List Subscriber) (s : St) :
    (subs.foldl (scheduleSub st v) s).heap = s.heap := by
  induction subs generalizing s with
  | nil => rfl
  | cons sub subs ih => rw [List.foldl_cons, ih, scheduleSub_heap]

theorem foldlSub_ctxs (st : PromiseState) (v : XVal) (subs : List Subscriber) (s : St) :
    (subs.foldl (scheduleSub st v) s).ctxs = s.ctxs := by
  induction subs generalizing s with
  | nil => rfl
  | cons sub subs ih => rw [List.foldl_cons, ih, scheduleSub_ctxs]

theorem foldlSub_log (st : PromiseState) (v : XVal) (subs : List Subscriber) (s : St) :
    (subs.foldl (scheduleSub st v) s).log = s.log := by
  induction subs generalizing s with
  | nil => rfl
  | cons sub subs ih => rw [List.foldl_cons, ih, scheduleSub_log]

/-! ## What `settlePromise` and `then` touch -/

theorem settlePromise_ctxs (a : Nat) (st : PromiseState) (v : XVal) (s : St) :
    (settlePromise a st v s).ctxs = s.ctxs := by
  unfold settlePromise
  dsimp only
  split
  · rw [foldlSub_ctxs]
  · rfl

theorem settlePromise_log (a : Nat) (st : PromiseState) (v : XVal) (s : St) :
    (settlePromise a st v s).log = s.log := by
  unfold settlePromise
  dsimp only
  split
  · rw [foldlSub_log]
  · rfl

theorem settlePromise_heap (a : Nat) (st : PromiseState) (v : XVal) (s : St) :
    (settlePromise a st v s).heap =
      if (s.heap.getD a default).state = .pending then
        s.heap.set a ⟨st, v, []⟩
      else s.heap := by
  unfold settlePromise
  dsimp only
  split
  · rw [foldlSub_heap]
  · rfl

theorem thenFn_ctxs (a : Nat) (f r : Handler) (s : St) :
    ((thenFn a f r s).2).ctxs = s.ctxs := by
  unfold thenFn defer
  dsimp only
  split
  · rfl
  · split <;> split <;> rfl

theorem thenFn_log (a : Nat) (f r : Handler) (s : St) :
    ((thenFn a f r s).2).log = s.log := by
  unfold thenFn defer
  dsimp only
  split
  · rfl
  · split <;> split <;> rfl

theorem ctxGet_settle (i a : Nat) (st : PromiseState) (v : XVal) (s : St) :
    ctxGet i (settlePromise a st v s) = ctxGet i s := by
  simp [ctxGet, settlePromise_ctxs]

theorem ctxGet_thenFn (i a : Nat) (f r : Handler) (s : St) :
    ctxGet i ((thenFn a f r s).2) = ctxGet i s := by
  simp [ctxGet, thenFn_ctxs]

theorem ctxGet_allocCtx_true (i : Nat) (s : St) (h : ctxGet i s = true) :
    ctxGet i (allocCtx s) = true := by
  have hlt := listGetD_true_lt s.ctxs i h
  show (s.ctxs ++ [false]).getD i false = true
  rw [listGetD_append_of_lt _ _ _ _ hlt]
  exact h

theorem ctxGet_setCtx_true (i j : Nat) (s : St) (h : ctxGet i s = true) :
    ctxGet i (setCtx j s) = true := by
  simpa [ctxGet] using listGetD_set_true s.ctxs i j h

theorem ctxGet_logEv (i : Nat) (e : Ev) (s : St) :
    ctxGet i (logEv e s) = ctxGet i s := rfl

theorem resolvePromise_log (a : Nat) (v : XVal) (s : St) :
    (resolvePromise a v s).log = s.log := settlePromise_log ..

theorem rejectPromise_log (a : Nat) (v : XVal) (s : St) :
    (rejectPromise a v s).log = s.log := settlePromise_log ..

theorem resolvePromise_ctxs (a : Nat) (v : XVal) (s : St) :
    (resolvePromise a v s).ctxs = s.ctxs := settlePromise_ctxs ..

theorem rejectPromise_ctxs (a : Nat) (v : XVal) (s : St) :
    (rejectPromise a v s).ctxs = s.ctxs := settlePromise_ctxs ..

/-! ## Behaviour of the interpreter -/

theorem exec_script_nil (fuel d ctx : Nat) (s : St) :
    exec fuel (.script d ctx .nil) s = s := by
  cases fuel <;> rfl

/-- A `settled` cell that is set stays set across any synchronous activity
of the resolution procedure: nested resolution attempts allocate and set
only their own, fresh cells. -/
theorem exec_ctxGet_true (fuel : Nat) :
    ∀ (c : Cmd) (s : St) (i : Nat),
      ctxGet i s = true → ctxGet i (exec fuel c s) = true := by
  induction fuel with
  | zero => intro c s i h; exact h
  | succ f ih =>
    intro c s i h
    cases c with
    | res d x =>
      cases x with
      | undef => simpa [exec, resolvePromise, ctxGet_settle] using h
      | nullv => simpa [exec, resolvePromise, ctxGet_settle] using h
      | int n => simpa [exec, resolvePromise, ctxGet_settle] using h
      | typeError => simpa [exec, resolvePromise, ctxGet_settle] using h
      | promise a =>
        by_cases hd : a = d
        · simpa [exec, hd, rejectPromise, ctxGet_settle] using h
        · simp only [exec, if_neg hd]
          rw [ctxGet_thenFn]
          exact ctxGet_allocCtx_true _ _ h
      | obj tag thn thn2 =>
        cases thn with
        | noThen => simpa [exec, resolvePromise, ctxGet_settle, ctxGet_logEv] using h
        | getterThrows e => simpa [exec, rejectPromise, ctxGet_settle, ctxGet_logEv] using h
        | callable sc =>
          simp only [exec]
          exact ih _ _ _ (ctxGet_allocCtx_true _ _ h)
    | script d ctx sc =>
      cases sc with
      | nil => simpa [exec] using h
      | cons k v rest =>
        cases k with
        | callF =>
          by_cases hc : ctxGet ctx s
          · simp only [exec, if_pos hc]
            exact ih _ _ _ h
          · simp only [exec, if_neg hc]
            exact ih _ _ _ (ih _ _ _ (ctxGet_setCtx_true _ _ _ h))
        | callR =>
          by_cases hc : ctxGet ctx s
          · simp only [exec, if_pos hc]
            exact ih _ _ _ h
          · simp only [exec, if_neg hc]
            refine ih _ _ _ ?_
            rw [rejectPromise, ctxGet_settle]
            exact ctxGet_setCtx_true _ _ _ h
        | raiseErr =>
          by_cases hc : ctxGet ctx s
          · simpa [exec, hc] using h
          · simpa [exec, hc, rejectPromise, ctxGet_settle] using h

/-- Once the one-shot guard of a resolution attempt is set, the rest of the
thenable's action script has no effect at all (lines 184, 189, 195). -/
theorem exec_script_settled (fuel : Nat) :
    ∀ (d ctx : Nat) (sc : Script) (s : St),
      ctxGet ctx s = true → exec fuel (.script d ctx sc) s = s := by
  induction fuel with
  | zero => intro d ctx sc s _; rfl
  | succ f ih =>
    intro d ctx sc s h
    cases sc with
    | nil => rfl
    | cons k v rest =>
      cases k with
      | callF =>
        simp only [exec, if_pos h]
        exact ih _ _ _ _ h
      | callR =>
        simp only [exec, if_pos h]
        exact ih _ _ _ _ h
      | raiseErr => simp [exec, h]

/-- Resolving with a non-object value never reads any `then` property. -/
theorem exec_res_noObj_log (fuel d : Nat) (v : XVal) (s : St)
    (h : noObj v = true) : (exec fuel (.res d v) s).log = s.log := by
  cases fuel with
  | zero => rfl
  | succ f =>
    cases v with
    | obj tag thn thn2 => simp [noObj] at h
    | promise a =>
      by_cases hd : a = d
      · simp [exec, hd, rejectPromise_log]
      · simp [exec, hd, thenFn_log]
    | undef => simp [exec, resolvePromise_log]
    | nullv => simp [exec, resolvePromise_log]
    | int n => simp [exec, resolvePromise_log]
    | typeError => simp [exec, resolvePromise_log]

/-- A script that only hands non-object values to its callbacks produces no
`thenRead` events. -/
theorem exec_script_noObj_log (fuel : Nat) :
    ∀ (d ctx : Nat) (sc : Script) (s : St), scriptNoObj sc = true →
      (exec fuel (.script d ctx sc) s).log = s.log := by
  induction fuel with
  | zero => intro d ctx sc s _; rfl
  | succ f ih =>
    intro d ctx sc s h
    cases sc with
    | nil => rfl
    | cons k v rest =>
      rw [scriptNoObj, Bool.and_eq_true] at h
      cases k with
      | callF =>
        by_cases hc : ctxGet ctx s
        · simp only [exec, if_pos hc]
          exact ih _ _ _ _ h.2
        · simp only [exec, if_neg hc]
          rw [ih _ _ _ _ h.2, exec_res_noObj_log _ _ _ _ h.1, setCtx_log]
      | callR =>
        by_cases hc : ctxGet ctx s
        · simp only [exec, if_pos hc]
          exact ih _ _ _ _ h.2
        · simp only [exec, if_neg hc]
          rw [ih _ _ _ _ h.2, rejectPromise_log, setCtx_log]
      | raiseErr =>
        by_cases hc : ctxGet ctx s
        · simp [exec, hc]
        · simp [exec, hc, rejectPromise_log]

theorem runTasks_zero (fuel : Nat) (s : St) : runTasks 0 fuel s = s := rfl

/-- One step of the scheduler: with `t` at the head of the queue, pop it
and run it. -/
theorem runTasks_succ (n fuel : Nat) (t : Task) (rest : List Task) (s : St)
    (hts : s.tasks = t :: rest) :
    runTasks (n + 1) fuel s = runTasks n fuel (runTask fuel t { s with tasks := rest }) := by
  rw [runTasks.eq_def]
  simp [hts]

/-! ## The claims -/

/-- C1, counterexample.  The claim says the `resolve` capability routes its
argument through the Resolution Procedure, so that resolving with a
thenable adopts the thenable's state.  In the code `resolve` is
`resolvePromise` (lines 49-51), a *direct* settle to fulfilled: resolving a
pending promise with a thenable whose `then` rejects with 7 leaves the
promise fulfilled with the thenable itself, whereas routing through the
resolution procedure would have left it rejected with 7. -/
theorem C1_cex :
    ((resolvePromise 0 rejectingThenable sPend).heap.getD 0 default).state = .fulfilled
  ∧ ((resolvePromise 0 rejectingThenable sPend).heap.getD 0 default).valueOrReason
      = rejectingThenable
  ∧ ((promiseResolutionProcedure 3 0 rejectingThenable sPend).heap.getD 0 default).state
      = .rejected
  ∧ ((promiseResolutionProcedure 3 0 rejectingThenable sPend).heap.getD 0 default).valueOrReason
      = .int 7 :=
  ⟨rfl, rfl, rfl, rfl⟩

/-- C1, amended.  The `resolve` capability passed to the work function
settles the promise *directly* to Fulfilled with exactly its argument —
even when that argument is a thenable (no adoption, the Resolution
Procedure is not involved) — and the `reject` capability settles directly
to Rejected with exactly its argument. -/
theorem C1_thm (a : Nat) (v : XVal) (s : St) (ha : a < s.heap.length)
    (hp : (s.heap.getD a default).state = .pending) :
    ((resolvePromise a v s).heap.getD a default).state = .fulfilled
  ∧ ((resolvePromise a v s).heap.getD a default).valueOrReason = v
  ∧ ((rejectPromise a v s).heap.getD a default).state = .rejected
  ∧ ((rejectPromise a v s).heap.getD a default).valueOrReason = v := by
  have hres : (resolvePromise a v s).heap = s.heap.set a ⟨.fulfilled, v, []⟩ := by
    rw [resolvePromise, settlePromise_heap, if_pos hp]
  have hrej : (rejectPromise a v s).heap = s.heap.set a ⟨.rejected, v, []⟩ := by
    rw [rejectPromise, settlePromise_heap, if_pos hp]
  rw [hres, hrej, listGetD_set_self _ _ _ _ ha, listGetD_set_self _ _ _ _ ha]
  exact ⟨rfl, rfl, rfl, rfl⟩

/-- C1, witness: the amended theorem at a concrete input (a pending
promise, resolved/rejected with a thenable value). -/
theorem C1_wit :
    0 < sPend.heap.length
  ∧ (sPend.heap.getD 0 default).state = .pending
  ∧ (((resolvePromise 0 rejectingThenable sPend).heap.getD 0 default).state = .fulfilled
     ∧ ((resolvePromise 0 rejectingThenable sPend).heap.getD 0 default).valueOrReason
         = rejectingThenable
     ∧ ((rejectPromise 0 rejectingThenable sPend).heap.getD 0 default).state = .rejected
     ∧ ((rejectPromise 0 rejectingThenable sPend).heap.getD 0 default).valueOrReason
         = rejectingThenable) :=
  ⟨by decide, by decide, C1_thm 0 rejectingThenable sPend (by decide) (by decide)⟩

/-- C2, counterexample.  The claim says `then` always returns a distinct
instance.  On an already-fulfilled promise with no callable handler, the
code returns `this` (line 108): the very same promise (address 0), with the
state untouched. -/
theorem C2_cex : thenFn 0 (.val .undef) (.val .undef) sFul = (0, sFul) := rfl

/-- C2, amended.  `then` returns a distinct promise instance *except* in
exactly one case: when the receiver is already settled and the handler
matching its state is not callable, `then` returns the receiver itself
(the pass-through short-cut of line 108). -/
theorem C2_thm (a : Nat) (f r : Handler) (s : St) (ha : a < s.heap.length) :
    (thenFn a f r s).1 = a ↔
      ((s.heap.getD a default).state ≠ .pending ∧
        isCallable (if (s.heap.getD a default).state = .fulfilled then f else r)
          = false) := by
  unfold thenFn defer
  dsimp only
  by_cases hp : (s.heap.getD a default).state = .pending
  · rw [if_pos hp]
    exact iff_of_false (by omega) (fun hcon => hcon.1 hp)
  · rw [if_neg hp]
    by_cases hc :
        isCallable (if (s.heap.getD a default).state = .fulfilled then f else r)
          = true
    · rw [if_pos hc]
      exact iff_of_false (by omega)
        (fun hcon => Bool.false_ne_true (hcon.2 ▸ hc))
    · rw [if_neg hc]
      exact iff_of_true rfl ⟨hp, by simpa using hc⟩

/-- C2, witness: the amended theorem at a concrete input (a pending
receiver with a callable fulfillment handler — the returned promise is the
freshly allocated address 1, not the receiver 0). -/
theorem C2_wit :
    0 < sPend.heap.length
  ∧ ((thenFn 0 (.fn 1 (.const .undef)) (.val .undef) sPend).1 = 0 ↔
      ((sPend.heap.getD 0 default).state ≠ .pending ∧
        isCallable
          (if (sPend.heap.getD 0 default).state = .fulfilled
           then (.fn 1 (.const .undef) : Handler) else .val .undef) = false)) :=
  ⟨by decide, C2_thm 0 (.fn 1 (.const .undef)) (.val .undef) sPend (by decide)⟩

/-- C3: the synchronous part of `then` performs no handler invocation (its
event log is untouched — handler invocations are logged only when a
scheduled task actually runs a handler), and likewise `settlePromise`
invokes no handler while draining subscribers: it only schedules work, and
the only promise record it touches is the one being settled (so no
downstream promise is settled synchronously either). -/
theorem C3_thm (self : Nat) (f r : Handler) (a : Nat) (st : PromiseState)
    (v : XVal) (s : St) :
    ((thenFn self f r s).2).log = s.log
  ∧ (settlePromise a st v s).log = s.log
  ∧ (settlePromise a st v s).heap =
      (if (s.heap.getD a default).state = .pending then
        s.heap.set a ⟨st, v, []⟩
      else s.heap) :=
  ⟨thenFn_log .., settlePromise_log .., settlePromise_heap ..⟩

/-- C4: settling an already-settled promise is a silent no-op — the entire
state (heap, scheduler queue, log) is returned unchanged (the guard at
line 122). -/
theorem C4_thm (a : Nat) (st : PromiseState) (v : XVal) (s : St)
    (h : (s.heap.getD a default).state ≠ .pending) :
    settlePromise a st v s = s := by
  unfold settlePromise
  dsimp only
  rw [if_neg h]

/-- C4, witness: re-settling a fulfilled promise changes nothing. -/
theorem C4_wit :
    (sFul.heap.getD 0 default).state ≠ .pending
  ∧ settlePromise 0 .rejected (.int 2) sFul = sFul :=
  ⟨by decide, C4_thm 0 .rejected (.int 2) sFul (by decide)⟩

/-- C5, counterexample.  The claim says resolving a promise with itself
*directly via the producer's resolve capability* rejects it with a
TypeError.  The `resolve` capability is a direct settle (lines 49-51,
113-115): resolving a pending promise with itself *fulfills* it, with
itself as the value — no TypeError is involved. -/
theorem C5_cex :
    ((resolvePromise 0 (.promise 0) sPend).heap.getD 0 default).state = .fulfilled
  ∧ ((resolvePromise 0 (.promise 0) sPend).heap.getD 0 default).valueOrReason
      = .promise 0 :=
  ⟨rfl, rfl⟩

/-- C5, amended.  Self-resolution *through the Resolution Procedure* — in
particular via a handler returning the very promise its `then` call
returned — always rejects that promise with a TypeError (lines 170-171,
caught at 207): the procedure applied to the deferred's own promise equals
an immediate `deferred.reject(TypeError)`, and `doPromiseCallback` with a
handler returning the deferred's own promise equals invoking the handler
and then rejecting with a TypeError.  The producer's resolve capability,
by contrast, settles directly (see the C1 theorems). -/
theorem C5_thm (fuel d id : Nat) (arg : XVal) (s : St) :
    promiseResolutionProcedure (fuel + 1) d (.promise d) s
      = rejectPromise d .typeError s
  ∧ doPromiseCallback (fuel + 1) d (.fn id (.const (.promise d))) arg s
      = rejectPromise d .typeError (logEv (.call id arg) s) := by
  constructor
  · simp [promiseResolutionProcedure, exec]
  · simp [doPromiseCallback, applyHandler, promiseResolutionProcedure, exec]

/-- C6: during one resolution attempt with a thenable, only the first
signal — the first callback invocation, or a throw from the `then`
invocation itself — has any effect: resolving with a thenable whose `then`
performs a whole sequence of actions gives exactly the same state as
resolving with a thenable that performs only the first of them, for every
action sequence, every first action (fulfill, reject, or throw) and every
fuel.  Later fulfills, rejects and faults are all ignored by the `settled`
guard (lines 181-197). -/
theorem C6_thm (fuel d tag : Nat) (k : TKind) (v : XVal) (rest : Script)
    (thn2 : ThenProp) (s : St) :
    promiseResolutionProcedure fuel d (.obj tag (.callable (.cons k v rest)) thn2) s
      = promiseResolutionProcedure fuel d (.obj tag (.callable (.cons k v .nil)) thn2) s := by
  cases fuel with
  | zero => rfl
  | succ f =>
    simp only [promiseResolutionProcedure, exec]
    cases f with
    | zero => rfl
    | succ f2 =>
      have hfresh : ctxGet ((logEv (.thenRead tag) s).ctxs.length)
          (allocCtx (logEv (.thenRead tag) s)) = false := by
        show (((logEv (.thenRead tag) s).ctxs) ++ [false]).getD
          ((logEv (.thenRead tag) s).ctxs.length) false = false
        exact listGetD_concat_length ..
      have hncond : ¬ (ctxGet ((logEv (.thenRead tag) s).ctxs.length)
          (allocCtx (logEv (.thenRead tag) s)) = true) := by
        rw [hfresh]; exact Bool.false_ne_true
      have hset : ctxGet ((logEv (.thenRead tag) s).ctxs.length)
          (setCtx ((logEv (.thenRead tag) s).ctxs.length)
            (allocCtx (logEv (.thenRead tag) s))) = true := by
        show ((((logEv (.thenRead tag) s).ctxs) ++ [false]).set
          ((logEv (.thenRead tag) s).ctxs.length) true).getD
          ((logEv (.thenRead tag) s).ctxs.length) false = true
        apply listGetD_set_self
        simp
      cases k with
      | callF =>
        simp only [exec, if_neg hncond]
        rw [exec_script_nil]
        exact exec_script_settled _ _ _ _ _ (exec_ctxGet_true _ _ _ _ hset)
      | callR =>
        simp only [exec, if_neg hncond]
        rw [exec_script_nil]
        apply exec_script_settled
        rw [rejectPromise, ctxGet_settle]
        exact hset
      | raiseErr =>
        simp only [exec, if_neg hncond]

/-- C7: resolving a pending promise with a nest of thenables of *any*
depth `n` (each `then` fulfilling with the next level, bottoming out in the
plain value `v`) terminates — fuel `2*n + 1` suffices — and fulfills the
promise with exactly `v` (the recursive unwrapping at lines 183-187). -/
theorem C7_thm (n : Nat) (v : Int) (d : Nat) :
    ∀ (s : St), d < s.heap.length → (s.heap.getD d default).state = .pending →
      ((promiseResolutionProcedure (2 * n + 1) d (chain n v) s).heap.getD d
          default).state = .fulfilled
    ∧ ((promiseResolutionProcedure (2 * n + 1) d (chain n v) s).heap.getD d
          default).valueOrReason = .int v := by
  induction n with
  | zero =>
    intro s hd hp
    have hheap : (promiseResolutionProcedure (2 * 0 + 1) d (chain 0 v) s).heap
        = s.heap.set d ⟨.fulfilled, .int v, []⟩ := by
      show (resolvePromise d (.int v) s).heap = _
      rw [resolvePromise, settlePromise_heap, if_pos hp]
    rw [hheap, listGetD_set_self _ _ _ _ hd]
    exact ⟨rfl, rfl⟩
  | succ m ih =>
    intro s hd hp
    have harith : 2 * (m + 1) + 1 = (2 * m + 1) + 1 + 1 := by omega
    have hfresh : ¬ (ctxGet ((logEv (.thenRead 0) s).ctxs.length)
        (allocCtx (logEv (.thenRead 0) s)) = true) := by
      have : ctxGet ((logEv (.thenRead 0) s).ctxs.length)
          (allocCtx (logEv (.thenRead 0) s)) = false := by
        show (((logEv (.thenRead 0) s).ctxs) ++ [false]).getD
          ((logEv (.thenRead 0) s).ctxs.length) false = false
        exact listGetD_concat_length ..
      rw [this]; exact Bool.false_ne_true
    have hd' : d < ((setCtx ((logEv (.thenRead 0) s).ctxs.length)
        (allocCtx (logEv (.thenRead 0) s))).heap).length := hd
    have hp' : (((setCtx ((logEv (.thenRead 0) s).ctxs.length)
        (allocCtx (logEv (.thenRead 0) s))).heap).getD d default).state
        = .pending := hp
    have hres := ih (setCtx ((logEv (.thenRead 0) s).ctxs.length)
        (allocCtx (logEv (.thenRead 0) s))) hd' hp'
    rw [promiseResolutionProcedure] at hres
    rw [harith, promiseResolutionProcedure, chain]
    generalize hF : 2 * m + 1 = F
    rw [hF] at hres
    simp only [exec, if_neg hfresh, exec_script_nil]
    exact hres

/-- C7, witness: a depth-2 nest over the value 5, resolved with fuel 5,
fulfills the pending promise with 5. -/
theorem C7_wit :
    0 < sPend.heap.length
  ∧ (sPend.heap.getD 0 default).state = .pending
  ∧ (((promiseResolutionProcedure (2 * 2 + 1) 0 (chain 2 5) sPend).heap.getD 0
        default).state = .fulfilled
     ∧ ((promiseResolutionProcedure (2 * 2 + 1) 0 (chain 2 5) sPend).heap.getD 0
        default).valueOrReason = .int 5) :=
  ⟨by decide, by decide, C7_thm 2 5 0 sPend (by decide) (by decide)⟩

/-- C8: settlement passes through unchanged when the relevant handler is
not callable.  For a rejected promise `a` with reason `e`:
`a.then()` (no handlers) returns `a` itself with the state unchanged, so
the chain `p.then().then(null, onRejected)` registers `onRejected` on `a`;
registering `then(null, onRejected)` and running the one scheduled task
invokes `onRejected` with exactly the original reason `e`.  Symmetrically,
a `then` whose fulfillment handler is not callable on a fulfilled promise
`b` returns `b` itself with its value untouched, whatever the rejection
handler is. -/
theorem C8_thm (s : St) (a b rid : Nat) (e v : XVal) (h : Handler)
    (ha : s.heap.getD a default = ⟨.rejected, e, []⟩)
    (hb : s.heap.getD b default = ⟨.fulfilled, v, []⟩)
    (ht : s.tasks = []) :
    thenFn a (.val .undef) (.val .undef) s = (a, s)
  ∧ (runTasks 1 1 (thenFn a (.val .nullv) (.fn rid (.const .undef)) s).2).log
      = s.log ++ [.call rid e]
  ∧ thenFn b (.val .undef) h s = (b, s) := by
  refine ⟨?_, ?_, ?_⟩
  · unfold thenFn defer
    rw [ha]
    simp [isCallable]
  · have hreg : (thenFn a (.val .nullv) (.fn rid (.const .undef)) s).2
        = schedule (.cb s.heap.length (.fn rid (.const .undef)) e)
            { s with heap := s.heap ++ [⟨.pending, .undef, []⟩] } := by
      unfold thenFn defer
      rw [ha]
      simp [isCallable]
    rw [hreg]
    have htasks : (schedule (.cb s.heap.length (.fn rid (.const .undef)) e)
        { s with heap := s.heap ++ [⟨.pending, .undef, []⟩] }).tasks
        = [.cb s.heap.length (.fn rid (.const .undef)) e] := by
      simp [schedule, ht]
    rw [runTasks_succ 0 1 _ [] _ htasks, runTasks_zero]
    simp only [runTask, doPromiseCallback, applyHandler, promiseResolutionProcedure,
      exec, resolvePromise_log]
    rfl
  · unfold thenFn defer
    rw [hb]
    simp [isCallable]

/-- C8, witness: the pass-through theorem on the concrete two-promise state
`sTwo` (reason 3, value 4, handler id 7). -/
theorem C8_wit :
    sTwo.heap.getD 0 default = ⟨.rejected, .int 3, []⟩
  ∧ sTwo.heap.getD 1 default = ⟨.fulfilled, .int 4, []⟩
  ∧ sTwo.tasks = []
  ∧ (thenFn 0 (.val .undef) (.val .undef) sTwo = (0, sTwo)
     ∧ (runTasks 1 1 (thenFn 0 (.val .nullv) (.fn 7 (.const .undef)) sTwo).2).log
         = sTwo.log ++ [.call 7 (.int 3)]
     ∧ thenFn 1 (.val .undef) (.val .undef) sTwo = (1, sTwo)) :=
  ⟨rfl, rfl, rfl,
    C8_thm sTwo 0 1 7 (.int 3) (.int 4) (.val .undef) rfl rfl rfl⟩

/-- C9: when a handler throws, `doPromiseCallback` (lines 158-166) equals:
invoke the handler (one `call` event), then reject the deferred with the
*exact* thrown value — the Resolution Procedure never runs on any return
value, and since the result is an ordinary rejection, the fault is absorbed
by the library instead of escaping (all model functions are total; there is
no uncaught-fault outcome). -/
theorem C9_thm (fuel d id : Nat) (e arg : XVal) (s : St) :
    doPromiseCallback fuel d (.fn id (.throws e)) arg s
      = rejectPromise d e (logEv (.call id arg) s) := by
  simp [doPromiseCallback, applyHandler]

/-- C10: during one resolution attempt with a thenable, the `then`
property is read exactly once and the invocation uses that single cached
read (line 175, `let then = x.then`).  First, the outcome is entirely
independent of what a *second* read of `then` would have produced (the
`thn2` slot).  Second, one attempt appends exactly one `thenRead` event
for the object — exactly one when the script hands only non-object values
to its callbacks, so that no nested attempt reads any tagged object. -/
theorem C10_thm (fuel d tag : Nat) (sc : Script) (q q' : ThenProp) (s : St) :
    promiseResolutionProcedure fuel d (.obj tag (.callable sc) q) s
      = promiseResolutionProcedure fuel d (.obj tag (.callable sc) q') s
  ∧ (scriptNoObj sc = true →
      readCount tag ((promiseResolutionProcedure (fuel + 1) d
          (.obj tag (.callable sc) q) s).log)
        = readCount tag s.log + 1) := by
  constructor
  · cases fuel with
    | zero => rfl
    | succ f => simp only [promiseResolutionProcedure, exec]
  · intro h
    simp only [promiseResolutionProcedure, exec]
    rw [exec_script_noObj_log _ _ _ _ _ h]
    simp [readCount, List.countP_append]

/-- C10, witness: a one-action thenable (tag 5) resolved against `sPend`:
the outcome ignores the second-read slot, and exactly one `thenRead 5` is
logged. -/
theorem C10_wit :
    scriptNoObj (.cons .callF (.int 1) .nil) = true
  ∧ promiseResolutionProcedure 2 0
        (.obj 5 (.callable (.cons .callF (.int 1) .nil)) .noThen) sPend
      = promiseResolutionProcedure 2 0
        (.obj 5 (.callable (.cons .callF (.int 1) .nil)) (.getterThrows .typeError))
        sPend
  ∧ readCount 5 ((promiseResolutionProcedure (2 + 1) 0
        (.obj 5 (.callable (.cons .callF (.int 1) .nil)) .noThen) sPend).log)
      = readCount 5 sPend.log + 1 :=
  ⟨rfl,
   (C10_thm 2 0 5 (.cons .callF (.int 1) .nil) .noThen
      (.getterThrows .typeError) sPend).1,
   (C10_thm 2 0 5 (.cons .callF (.int 1) .nil) .noThen
      (.getterThrows .typeError) sPend).2 rfl⟩

end Pangako
